import Mathlib

/-!
Verification development for a library of synchronization primitives written
in a systems language on top of atomic memory operations: spin lock, blocking
mutex, reader-writer lock, condition variable, one-shot channel, and an
atomically reference-counted pointer pair (Arc/Weak).

The atomic counters and state words are modelled as natural numbers with
explicit wrap-around at the machine word size (u32 or usize/u64).  Each atomic
read-modify-write instruction of the source is one step of the model; since
all shared accesses in the source go through such atomic instructions, an
execution is a linearization of these steps, and claims about all runs become
claims about all interleavings of the step functions below.
-/

namespace RustConc

/-- Modulus of the 32-bit unsigned machine word. -/
def u32Mod : Nat := 2 ^ 32

/-- Largest value of the 32-bit unsigned machine word (u32 MAX). -/
def u32Max : Nat := u32Mod - 1

/-- Modulus of the pointer-sized unsigned machine word (64-bit target). -/
def usizeMod : Nat := 2 ^ 64

/-- Largest value of the pointer-sized unsigned machine word (usize MAX). -/
def usizeMax : Nat := usizeMod - 1

/-- Wrapping addition on a usize word, as performed by fetch_add. -/
def wadd (a b : Nat) : Nat := (a + b) % usizeMod

/-- Wrapping subtraction of 1 on a usize word, as performed by fetch_sub(1). -/
def wsub1 (a : Nat) : Nat := (a + usizeMod - 1) % usizeMod

namespace Arc

/-- Sentinel stored in the weak count while get_mut runs its exclusivity
check (the source uses usize MAX). -/
def WEAK_COUNT_LOCKED_VAL : Nat := usizeMax

/-- Safety bound on both reference counts (the source uses usize MAX / 2). -/
def COUNT_LIMIT : Nat := usizeMax / 2

/-- Outcome of Arc.get_mut on the shared counters: whether mutable access was
granted, the final counter values, and whether the sentinel was written into
the weak count on this path. -/
structure GetMutOutcome where
  access : Bool
  strong : Nat
  weak : Nat
  sentinelSet : Bool
deriving Repr, DecidableEq

/-- Arc.get_mut: compare_exchange the weak count from 1 to the sentinel; on
failure return no access.  On success load the strong count, store 1 back
into the weak count, and grant access exactly when strong was 1. -/
def get_mut (strong weak : Nat) : GetMutOutcome :=
  if weak = 1 then
    let lockedWeak := WEAK_COUNT_LOCKED_VAL
    let isUnique := strong == 1
    let finalWeak := 1
    { access := isUnique, strong := strong, weak := finalWeak,
      sentinelSet := lockedWeak == lockedWeak }
  else
    { access := false, strong := strong, weak := weak, sentinelSet := false }

/-- Result of the Arc.downgrade CAS loop run without interference. -/
inductive DowngradeResult where
  /-- The CAS succeeded: a Weak handle to the same allocation is returned;
  the fields are the final strong and weak counter values. -/
  | ok (strong : Nat) (weak : Nat)
  /-- The assert on the count bound fired (process panics). -/
  | panic
  /-- Fuel ran out while the loop was still spinning. -/
  | spinning
deriving Repr, DecidableEq

/-- One execution of the Arc.downgrade retry loop, fuel-bounded, with the
shared counters held fixed (no interference).  The first argument after the
fuel is the loop variable n, initialized by the source from a load of the
strong counter; on the sentinel it spins (reloading strong), past the count
limit it panics, and otherwise it attempts compare_exchange of the weak count
from n to n + 1, retrying with the observed value on failure. -/
def downgradeLoop : Nat → Nat → Nat → Nat → DowngradeResult
  | 0, _, _, _ => .spinning
  | fuel + 1, n, strong, weak =>
      if n = WEAK_COUNT_LOCKED_VAL then downgradeLoop fuel strong strong weak
      else if COUNT_LIMIT < n then .panic
      else if weak = n then .ok strong (wadd n 1)
      else downgradeLoop fuel weak strong weak

/-- Arc.downgrade entry point: the loop variable starts from a relaxed load
of the strong counter. -/
def downgrade (fuel strong weak : Nat) : DowngradeResult :=
  downgradeLoop fuel strong strong weak

/-- State of one ArcData allocation together with the ghost bookkeeping the
lifecycle claims are about: the two shared counters, the number of live Arc
and Weak handles, and counts of payload-destructor and allocation-free
events. -/
structure ArcState where
  strong : Nat
  weak : Nat
  arcs : Nat
  weaks : Nat
  payloadDrops : Nat
  allocFrees : Nat
deriving Repr, DecidableEq

/-- State right after Arc.new: strong = 1, weak = 1, one live Arc. -/
def initState : ArcState :=
  { strong := 1, weak := 1, arcs := 1, weaks := 0,
    payloadDrops := 0, allocFrees := 0 }

/-- Body of the Weak destructor applied to the counters: fetch_sub(1) on the
weak count and, when the previous value was 1, free the allocation. -/
def weakRelease (s : ArcState) : ArcState :=
  let prev := s.weak
  let s1 := { s with weak := wsub1 s.weak }
  if prev = 1 then { s1 with allocFrees := s1.allocFrees + 1 } else s1

/-- The Arc/Weak operations a client can perform on live handles. -/
inductive ArcOp where
  | cloneArc
  | dropArc
  | downgradeOp
  | cloneWeak
  | dropWeak
  | upgrade
deriving Repr, DecidableEq

/-- One Arc/Weak operation.  The result is none when the operation is not
enabled (no live handle of the required kind), when the process aborts or
panics on a count bound, or when the operation would spin forever.  Each
branch transcribes the corresponding source function:
cloneArc = impl Clone for Arc (fetch_add then abort past COUNT_LIMIT),
dropArc = impl Drop for Arc (fetch_sub; on 1 destroy payload and release the
implicit weak unit), downgradeOp = Arc.downgrade via the loop above,
cloneWeak = impl Clone for Weak, dropWeak = impl Drop for Weak,
upgrade = Weak.upgrade (CAS loop on strong, none-result when strong is 0). -/
def applyOp (s : ArcState) : ArcOp → Option ArcState
  | .cloneArc =>
      if s.arcs = 0 then none
      else if COUNT_LIMIT ≤ s.strong then none
      else some { s with strong := wadd s.strong 1, arcs := s.arcs + 1 }
  | .dropArc =>
      if s.arcs = 0 then none
      else
        let prev := s.strong
        let s1 := { s with strong := wsub1 s.strong, arcs := s.arcs - 1 }
        if prev = 1 then
          some (weakRelease { s1 with payloadDrops := s1.payloadDrops + 1 })
        else some s1
  | .downgradeOp =>
      if s.arcs = 0 then none
      else
        match downgrade 2 s.strong s.weak with
        | .ok st wk => some { s with strong := st, weak := wk, weaks := s.weaks + 1 }
        | _ => none
  | .cloneWeak =>
      if s.weaks = 0 then none
      else if COUNT_LIMIT ≤ s.weak then none
      else some { s with weak := wadd s.weak 1, weaks := s.weaks + 1 }
  | .dropWeak =>
      if s.weaks = 0 then none
      else some { weakRelease s with weaks := s.weaks - 1 }
  | .upgrade =>
      if s.weaks = 0 then none
      else if s.strong = 0 then some s
      else if COUNT_LIMIT < s.strong then none
      else some { s with strong := wadd s.strong 1, arcs := s.arcs + 1 }

/-- Run a sequence of Arc/Weak operations from a given state. -/
def runFrom (s : ArcState) : List ArcOp → Option ArcState
  | [] => some s
  | op :: rest =>
      match applyOp s op with
      | some s1 => runFrom s1 rest
      | none => none

/-- Run a sequence of Arc/Weak operations from the state made by Arc.new. -/
def runOps (ops : List ArcOp) : Option ArcState :=
  runFrom initState ops

/-- Inductive invariant of the Arc/Weak lifecycle: the strong count equals
the number of live Arcs, the weak count equals the number of live Weaks plus
the implicit unit owned by all Arcs, the counts stay within one of the safety
bound, the payload has been destroyed exactly once as soon as no Arc is left
and never before, and the allocation has been freed exactly once as soon as
the weak count is zero and never before. -/
def Inv (s : ArcState) : Prop :=
  s.strong = s.arcs ∧
  (s.arcs = 0 → s.weak = s.weaks) ∧
  (s.arcs ≠ 0 → s.weak = s.weaks + 1) ∧
  s.strong ≤ COUNT_LIMIT + 1 ∧
  s.weak ≤ COUNT_LIMIT + 1 ∧
  (s.arcs = 0 → s.payloadDrops = 1) ∧
  (s.arcs ≠ 0 → s.payloadDrops = 0) ∧
  (s.weak = 0 → s.allocFrees = 1) ∧
  (s.weak ≠ 0 → s.allocFrees = 0)

end Arc

namespace Mutex

/-- Body of the MutexGuard destructor applied to the 3-valued state word:
swap the word to 0 with release ordering and call wake_one exactly when the
previous value was 2 (locked with waiters).  Returns the new state word and
whether wake_one was called. -/
def guardDrop (state : Nat) : Nat × Bool :=
  let prev := state
  ((0 : Nat), prev == 2)

end Mutex

namespace RwLock

/-- Body of the ReadGuard destructor applied to the state word and writer
wake counter: fetch_sub(2) with release ordering on the state word; when the
previous value was 3 (one reader left and the writer-wait bit set), fetch_add
the writer wake counter and call wake_one on it.  Returns the new state word,
the new wake counter, and whether wake_one was called. -/
def readGuardDrop (state wwc : Nat) : Nat × Nat × Bool :=
  let prev := state
  let state1 := (state + u32Mod - 2) % u32Mod
  if prev = 3 then (state1, (wwc + 1) % u32Mod, true)
  else (state1, wwc, false)

/-- Outcome of one iteration of the RwLock.read loop. -/
inductive ReadOutcome where
  /-- The assert on the reader bound fired (process panics); the state word
  is unchanged and no lock was taken. -/
  | panic (state : Nat)
  /-- The CAS adding 2 succeeded: a read guard is returned. -/
  | locked (state : Nat)
  /-- Odd state: a writer holds or waits, so the thread blocks on the state
  word; the state word is unchanged. -/
  | waited (state : Nat)
deriving Repr, DecidableEq

/-- One interference-free iteration of RwLock.read: on an even state assert
that the word is below u32 MAX - 2 and CAS it two higher; on an odd state
block on the futex. -/
def readAttempt (state : Nat) : ReadOutcome :=
  if state % 2 = 0 then
    if state < u32Max - 2 then .locked ((state + 2) % u32Mod)
    else .panic state
  else .waited state

end RwLock

namespace Arc

/-- Body of impl Clone for Arc applied to the strong counter: fetch_add(1)
and then abort the process when the previous value was at least COUNT_LIMIT.
The none result is the abort; since the process terminates, the wrapped
counter value written by the preceding fetch_add is unobservable. -/
def cloneStrong (strong : Nat) : Option Nat :=
  let prev := strong
  let strong1 := wadd strong 1
  if COUNT_LIMIT ≤ prev then none else some strong1

end Arc

namespace Condvar

/-- Condvar state: the u32 generation counter and the waiter count. -/
structure CV where
  counter : Nat
  waiters_count : Nat
deriving Repr, DecidableEq

/-- Condvar.new. -/
def new : CV := { counter := 0, waiters_count := 0 }

/-- Condvar.notify_one: when the waiter count is nonzero, fetch_add(1) the
u32 generation counter (wrapping) and wake one waiter; otherwise no-op. -/
def notify_one (cv : CV) : CV :=
  if cv.waiters_count ≠ 0 then { cv with counter := (cv.counter + 1) % u32Mod }
  else cv

/-- Condvar.notify_all: same counter effect as notify_one, waking all. -/
def notify_all (cv : CV) : CV :=
  if cv.waiters_count ≠ 0 then { cv with counter := (cv.counter + 1) % u32Mod }
  else cv

/-- k successive notify_one calls starting from a fresh Condvar observed by
one parked waiter throughout. -/
def notifyIter : Nat → CV
  | 0 => { counter := 0, waiters_count := 1 }
  | k + 1 => notify_one (notifyIter k)

end Condvar

namespace Oneshot

/-- OneshotChannel state: the MaybeUninit message slot (none = uninitialized
or moved out), the readiness flag, and a ghost count of how many times the
channel destructor ran the message destructor on this storage. -/
structure Channel where
  slot : Option Nat
  ready : Bool
  msgDrops : Nat
deriving Repr, DecidableEq

/-- OneshotChannel.new: empty slot, readiness flag false. -/
def new : Channel := { slot := none, ready := false, msgDrops := 0 }

/-- Sender.send: write the message into the slot, then publish readiness
with release ordering (the unpark call does not change the channel). -/
def send (c : Channel) (v : Nat) : Channel :=
  { c with slot := some v, ready := true }

/-- Receiver.receive, the iteration on which the test-and-clear swap of the
readiness flag returns true: the flag is cleared and the message is moved
out of the slot.  Returns none when the flag was false (the thread parks)
or, unreachably from a real send, when the slot is empty. -/
def receiveReady (c : Channel) : Option (Nat × Channel) :=
  if c.ready then
    match c.slot with
    | some v => some (v, { c with ready := false, slot := none })
    | none => none
  else none

/-- Body of impl Drop for OneshotChannel: when the readiness flag is still
set, run the message destructor on the slot contents (counted by the ghost
field); otherwise do nothing. -/
def dropChannel (c : Channel) : Channel :=
  if c.ready then { c with msgDrops := c.msgDrops + 1, slot := none }
  else c

/-- OneshotChannel.split: the assignment of a freshly constructed channel
over the old storage first drops the previous channel value in place (running
dropChannel) and then installs the fresh empty state.  The ghost destructor
count survives the overwrite, tracking the storage across reuse. -/
def split (c : Channel) : Channel :=
  let old := dropChannel c
  { new with msgDrops := old.msgDrops }

end Oneshot

namespace LockSim

/-!
Interleaving semantics for the counter-increment test program: T threads each
repeat N times { lock; read the shared counter; write it back plus one;
release }.  The lock is abstract: a type of lock words, a family of atomic
acquire instructions, each returning the new lock word and whether the lock
was taken by this step, and a release instruction.  The mutex instantiation
has two acquire instructions, the fast/contended compare_exchange(0, 1) and
the contended swap(2) whose previous value 0 means the lock was free and is
now held in the has-waiters state; relaxed spin loads and futex waits do not
change shared state and are omitted.  The spin lock instantiation has the
single swap(true) instruction.  A schedule is an arbitrary list of thread
actions, so the theorems quantify over every interleaving of the atomic
instructions.
-/

/-- Phase of one thread inside its current increment cycle. -/
inductive Ph where
  /-- Trying to acquire the lock. -/
  | lockT
  /-- Holding the lock, about to read the shared counter. -/
  | readT
  /-- Holding the lock, about to write back the recorded value plus one. -/
  | writeT (tmp : Nat)
  /-- Holding the lock, about to release it. -/
  | unlockT
  /-- All N cycles finished. -/
  | doneT
deriving Repr, DecidableEq

/-- One thread: remaining cycles (counting the one in progress) and phase. -/
structure TState where
  rem : Nat
  ph : Ph
deriving Repr, DecidableEq

/-- Whether a phase holds the lock. -/
def holdingB : Ph → Bool
  | .readT => true
  | .writeT _ => true
  | .unlockT => true
  | _ => false

/-- Global configuration: lock word, shared counter, thread states. -/
structure Cfg (L : Type) where
  lock : L
  counter : Nat
  threads : List TState
deriving Repr, DecidableEq

/-- A scheduled action: which thread performs which instruction. -/
inductive Act (A : Type) where
  /-- An atomic acquire instruction of kind a. -/
  | acq (i : Nat) (a : A)
  /-- The protected read of the shared counter. -/
  | rd (i : Nat)
  /-- The protected write of the recorded value plus one. -/
  | wr (i : Nat)
  /-- The atomic release instruction. -/
  | rel (i : Nat)
deriving Repr, DecidableEq

variable {L A : Type}

/-- One step of the interleaving semantics; none when the action is not
enabled in the current configuration. -/
def stepCfg (acquire : L → A → L × Bool) (release : L → L)
    (c : Cfg L) : Act A → Option (Cfg L)
  | .acq i a =>
      match c.threads[i]? with
      | some t =>
          if t.ph = .lockT then
            let r := acquire c.lock a
            some { c with
                   lock := r.1,
                   threads := c.threads.set i
                     { t with ph := if r.2 then .readT else .lockT } }
          else none
      | none => none
  | .rd i =>
      match c.threads[i]? with
      | some t =>
          if t.ph = .readT then
            some { c with
                   threads := c.threads.set i
                     { t with ph := .writeT c.counter } }
          else none
      | none => none
  | .wr i =>
      match c.threads[i]? with
      | some t =>
          match t.ph with
          | .writeT tmp =>
              some { c with
                     counter := tmp + 1,
                     threads := c.threads.set i { t with ph := .unlockT } }
          | _ => none
      | none => none
  | .rel i =>
      match c.threads[i]? with
      | some t =>
          if t.ph = .unlockT then
            some { c with
                   lock := release c.lock,
                   threads := c.threads.set i
                     (if t.rem ≤ 1 then ⟨0, .doneT⟩ else ⟨t.rem - 1, .lockT⟩) }
          else none
      | none => none

/-- Run a schedule of actions. -/
def run (acquire : L → A → L × Bool) (release : L → L)
    (c : Cfg L) : List (Act A) → Option (Cfg L)
  | [] => some c
  | act :: rest =>
      match stepCfg acquire release c act with
      | some c1 => run acquire release c1 rest
      | none => none

/-- Initial configuration: unlocked lock word, counter 0, T identical
threads each with N cycles to perform. -/
def initCfg (l0 : L) (N T : Nat) : Cfg L :=
  { lock := l0
    counter := 0
    threads := List.replicate T (if N = 0 then ⟨0, .doneT⟩ else ⟨N, .lockT⟩) }

/-- Increments contributed so far by one thread with per-thread quota N. -/
def contrib (N : Nat) (t : TState) : Nat :=
  (N - t.rem) + (if t.ph = .unlockT then 1 else 0)

/-- Per-thread sanity invariant relative to the quota N. -/
def TInv (N : Nat) (t : TState) : Prop :=
  t.rem ≤ N ∧ (t.ph = .doneT → t.rem = 0) ∧ (t.ph ≠ .doneT → 1 ≤ t.rem)

/-- At most one thread holds the lock, positionally. -/
def MutualExclusion (c : Cfg L) : Prop :=
  ∀ (i j : Nat) (ti tj : TState),
    c.threads[i]? = some ti → c.threads[j]? = some tj →
    holdingB ti.ph = true → holdingB tj.ph = true → i = j

/-- Global inductive invariant: mutual exclusion, a free lock word means no
holder, per-thread sanity, a recorded counter value still matches the shared
counter, and the shared counter equals the total of all contributions. -/
def Inv (free : L → Bool) (N : Nat) (c : Cfg L) : Prop :=
  MutualExclusion c ∧
  (free c.lock = true →
    ∀ (i : Nat) (t : TState), c.threads[i]? = some t → holdingB t.ph = false) ∧
  (∀ (i : Nat) (t : TState), c.threads[i]? = some t → TInv N t) ∧
  (∀ (i : Nat) (t : TState) (tmp : Nat),
    c.threads[i]? = some t → t.ph = .writeT tmp → tmp = c.counter) ∧
  c.counter = (c.threads.map (contrib N)).sum

/-- All threads have finished their quota. -/
def AllDone (c : Cfg L) : Prop :=
  ∀ (i : Nat) (t : TState), c.threads[i]? = some t → t.ph = .doneT

/-- Mutex state word and its two acquire instructions: true selects the
compare_exchange(0, 1, Acquire, Relaxed) used by the fast path and by the
contended retry, false selects the swap(2, Acquire) of the contended loop,
which takes the lock exactly when the previous value was 0. -/
def mutexAcquire (l : Nat) (a : Bool) : Nat × Bool :=
  if a then (if l = 0 then (1, true) else (l, false))
  else (2, l == 0)

/-- MutexGuard drop: swap the state word to 0 (the wake_one call does not
change the word). -/
def mutexRelease (_ : Nat) : Nat := 0

/-- The mutex state word is free exactly when it is 0. -/
def mutexFree (l : Nat) : Bool := l == 0

/-- SpinLock acquire: swap(true, Acquire), taking the lock exactly when the
previous value was false. -/
def spinAcquire (l : Bool) (_ : Unit) : Bool × Bool := (true, !l)

/-- SpinLock guard drop: store(false, Release). -/
def spinRelease (_ : Bool) : Bool := false

/-- The spin lock flag is free exactly when it is false. -/
def spinFree (l : Bool) : Bool := !l

end LockSim

/-! ## Numeric helper lemmas -/

theorem usizeMod_val : usizeMod = 18446744073709551616 := rfl

theorem u32Mod_val : u32Mod = 4294967296 := rfl

theorem u32Max_val : u32Max = 4294967295 := rfl

theorem COUNT_LIMIT_val : Arc.COUNT_LIMIT = 9223372036854775807 := rfl

theorem WEAK_LOCKED_val : Arc.WEAK_COUNT_LOCKED_VAL = 18446744073709551615 := rfl

theorem wadd_one_eq (a : Nat) (h : a + 1 < usizeMod) : wadd a 1 = a + 1 :=
  Nat.mod_eq_of_lt h

theorem wsub1_eq (a : Nat) (h1 : 1 ≤ a) (h2 : a < usizeMod) : wsub1 a = a - 1 := by
  unfold wsub1
  have h3 : a + usizeMod - 1 = (a - 1) + usizeMod := by omega
  rw [h3, Nat.add_mod_right]
  exact Nat.mod_eq_of_lt (by omega)

theorem wadd_one_small (a : Nat) (h : a ≤ Arc.COUNT_LIMIT) : wadd a 1 = a + 1 := by
  rw [COUNT_LIMIT_val] at h
  exact wadd_one_eq a (by rw [usizeMod_val]; omega)

theorem wsub1_small (a : Nat) (h1 : 1 ≤ a) (h : a ≤ Arc.COUNT_LIMIT + 1) :
    wsub1 a = a - 1 := by
  rw [COUNT_LIMIT_val] at h
  exact wsub1_eq a h1 (by rw [usizeMod_val]; omega)

/-! ## The Arc.downgrade loop, interference-free runs -/

/-- With both counters within the safety bound, the downgrade loop succeeds
within fuel 2: the weak count grows by exactly one and the strong count is
returned unchanged. -/
theorem downgrade_ok (s w : Nat) (hs : s ≤ Arc.COUNT_LIMIT)
    (hw : w ≤ Arc.COUNT_LIMIT) : Arc.downgrade 2 s w = .ok s (w + 1) := by
  rw [COUNT_LIMIT_val] at hs hw
  unfold Arc.downgrade Arc.downgradeLoop
  rw [if_neg (by rw [WEAK_LOCKED_val]; omega),
    if_neg (by rw [COUNT_LIMIT_val]; omega)]
  by_cases hws : w = s
  · rw [if_pos hws, hws, wadd_one_eq s (by rw [usizeMod_val]; omega)]
  · rw [if_neg hws]
    unfold Arc.downgradeLoop
    rw [if_neg (by rw [WEAK_LOCKED_val]; omega),
      if_neg (by rw [COUNT_LIMIT_val]; omega), if_pos rfl,
      wadd_one_eq w (by rw [usizeMod_val]; omega)]

/-- When the loaded strong count already exceeds the safety bound, the
assert at the head of the downgrade loop panics. -/
theorem downgrade_panic_hi_strong (s w : Nat) (hs : s = Arc.COUNT_LIMIT + 1) :
    Arc.downgrade 2 s w = .panic := by
  rw [COUNT_LIMIT_val] at hs
  unfold Arc.downgrade Arc.downgradeLoop
  rw [if_neg (by rw [WEAK_LOCKED_val]; omega),
    if_pos (by rw [COUNT_LIMIT_val]; omega)]

/-- When the weak count sits one past the safety bound while strong is
within it, the retry iteration of the downgrade loop panics on the assert. -/
theorem downgrade_panic_hi_weak (s w : Nat) (hs : s ≤ Arc.COUNT_LIMIT)
    (hw : w = Arc.COUNT_LIMIT + 1) : Arc.downgrade 2 s w = .panic := by
  rw [COUNT_LIMIT_val] at hs hw
  unfold Arc.downgrade Arc.downgradeLoop
  rw [if_neg (by rw [WEAK_LOCKED_val]; omega),
    if_neg (by rw [COUNT_LIMIT_val]; omega),
    if_neg (by omega)]
  unfold Arc.downgradeLoop
  rw [if_neg (by rw [WEAK_LOCKED_val]; omega),
    if_pos (by rw [COUNT_LIMIT_val]; omega)]

/-! ## Mutex guard release (C5) -/

/-- C5: dropping a MutexGuard swaps the mutex state word to 0 (the release
ordering is the source's; the model records the value), and it calls
wake_one if and only if the state immediately before the swap was 2; in
particular when the prior state was 1 no wake call is made. -/
theorem mutex_guard_drop_spec (st : Nat) :
    (Mutex.guardDrop st).1 = 0 ∧
    ((Mutex.guardDrop st).2 = true ↔ st = 2) ∧
    (st = 1 → (Mutex.guardDrop st).2 = false) := by
  refine ⟨rfl, ?_, ?_⟩
  · simp [Mutex.guardDrop]
  · intro h
    subst h
    rfl

/-- Witness for C5 at the two concrete prior states 2 and 1. -/
theorem mutex_guard_drop_spec_witness :
    (Mutex.guardDrop 2).2 = true ∧ (Mutex.guardDrop 1).2 = false :=
  ⟨(mutex_guard_drop_spec 2).2.1.mpr rfl, (mutex_guard_drop_spec 1).2.2 rfl⟩

/-! ## RwLock read guard release (C6) -/

/-- C6: dropping a ReadGuard subtracts 2 from the RwLock state word
(wrapping u32 fetch_sub, whose returned result is the previous value), and
it bumps the writer-wake counter and calls wake_one exactly when that result
equals 3, i.e. when the prior word encoded one remaining reader and the
writer-wait bit; in every other case the wake counter is unchanged and no
wake call is made. -/
theorem rwlock_read_guard_drop_spec (st wwc : Nat) (hst : st < u32Mod) :
    (RwLock.readGuardDrop st wwc).1 = (st + u32Mod - 2) % u32Mod ∧
    (2 ≤ st → (RwLock.readGuardDrop st wwc).1 = st - 2) ∧
    ((RwLock.readGuardDrop st wwc).2.2 = true ↔ st = 3) ∧
    (st = 3 ↔ st / 2 = 1 ∧ st % 2 = 1) ∧
    (st = 3 → (RwLock.readGuardDrop st wwc).2.1 = (wwc + 1) % u32Mod) ∧
    (st ≠ 3 → (RwLock.readGuardDrop st wwc).2.1 = wwc) := by
  rw [u32Mod_val] at hst
  unfold RwLock.readGuardDrop
  by_cases h3 : st = 3 <;> simp [h3, u32Mod_val]
  all_goals omega

/-- Witness for C6 at prior state 3 (last reader, writer waiting) and prior
state 2 (last reader, no writer waiting). -/
theorem rwlock_read_guard_drop_spec_witness :
    (RwLock.readGuardDrop 3 0).2.2 = true ∧
    (RwLock.readGuardDrop 3 0).2.1 = 1 ∧
    (RwLock.readGuardDrop 2 0).2.2 = false ∧
    (RwLock.readGuardDrop 2 0).2.1 = 0 := by
  have h3 := rwlock_read_guard_drop_spec 3 0 (by norm_num [u32Mod_val])
  have h2 := rwlock_read_guard_drop_spec 2 0 (by norm_num [u32Mod_val])
  refine ⟨h3.2.2.1.mpr rfl, ?_, ?_, h2.2.2.2.2.2 (by norm_num)⟩
  · have := h3.2.2.2.2.1 rfl
    simpa using this
  · have := h2.2.2.1
    simp only [show (2 : Nat) ≠ 3 by norm_num, iff_false] at this
    exact Bool.eq_false_iff.mpr (fun hc => this hc)

/-! ## Fatal overflow policy (C7) -/

/-- C7: count overflow past the safety bounds is fatal, never a silent
wraparound.  On an even state word, RwLock.read panics before taking the
lock when the word is at least u32 MAX - 2, leaving the word unchanged, and
otherwise takes the lock with the word growing by exactly 2 without
wrapping.  Arc clone aborts the process when the previous strong count is at
least COUNT_LIMIT, and otherwise increments it by exactly 1 without
wrapping, staying at or below COUNT_LIMIT. -/
theorem overflow_fatal_spec :
    (∀ st : Nat, st < u32Mod → st % 2 = 0 →
       (u32Max - 2 ≤ st → RwLock.readAttempt st = .panic st) ∧
       (st < u32Max - 2 →
          RwLock.readAttempt st = .locked (st + 2) ∧ st + 2 < u32Mod)) ∧
    (∀ s : Nat,
       (Arc.COUNT_LIMIT ≤ s → Arc.cloneStrong s = none) ∧
       (s < Arc.COUNT_LIMIT →
          Arc.cloneStrong s = some (s + 1) ∧ s + 1 ≤ Arc.COUNT_LIMIT)) := by
  constructor
  · intro st hlt heven
    rw [u32Mod_val] at hlt
    constructor
    · intro hge
      rw [u32Max_val] at hge
      unfold RwLock.readAttempt
      rw [if_pos heven, if_neg (by rw [u32Max_val]; omega)]
    · intro hbelow
      rw [u32Max_val] at hbelow
      unfold RwLock.readAttempt
      rw [if_pos heven, if_pos (by rw [u32Max_val]; omega)]
      refine ⟨?_, by rw [u32Mod_val]; omega⟩
      rw [Nat.mod_eq_of_lt (by rw [u32Mod_val]; omega)]
  · intro s
    constructor
    · intro hge
      unfold Arc.cloneStrong
      rw [if_pos hge]
    · intro hlt
      rw [COUNT_LIMIT_val] at hlt
      unfold Arc.cloneStrong
      rw [if_neg (by rw [COUNT_LIMIT_val]; omega)]
      refine ⟨?_, by rw [COUNT_LIMIT_val]; omega⟩
      rw [wadd_one_eq s (by rw [usizeMod_val]; omega)]

/-- Witness for C7: the even state word just below u32 MAX panics, the empty
lock locks to 2, a strong count at the limit aborts, and a strong count of 1
clones to 2. -/
theorem overflow_fatal_spec_witness :
    RwLock.readAttempt 4294967294 = .panic 4294967294 ∧
    RwLock.readAttempt 0 = .locked 2 ∧
    Arc.cloneStrong 9223372036854775807 = none ∧
    Arc.cloneStrong 1 = some 2 := by
  refine ⟨?_, ?_, ?_, ?_⟩
  · exact (overflow_fatal_spec.1 4294967294 (by rw [u32Mod_val]; omega)
      (by omega)).1 (by rw [u32Max_val]; omega)
  · exact ((overflow_fatal_spec.1 0 (by rw [u32Mod_val]; omega)
      (by omega)).2 (by rw [u32Max_val]; omega)).1
  · exact (overflow_fatal_spec.2 9223372036854775807).1 (by rw [COUNT_LIMIT_val])
  · exact ((overflow_fatal_spec.2 1).2 (by rw [COUNT_LIMIT_val]; omega)).1

/-! ## Arc.get_mut exclusivity check (C2) -/

/-- C2: Arc.get_mut grants mutable access exactly when the weak count is 1
(so it can be locked to the sentinel) and the strong count is 1; the strong
and weak counts it leaves behind always equal the ones it found, and on
every path that wrote the sentinel the weak count has been restored to 1 by
the time the call returns. -/
theorem get_mut_spec (s w : Nat) :
    ((Arc.get_mut s w).access = true ↔ w = 1 ∧ s = 1) ∧
    (Arc.get_mut s w).strong = s ∧
    (Arc.get_mut s w).weak = w ∧
    ((Arc.get_mut s w).sentinelSet = true ↔ w = 1) ∧
    ((Arc.get_mut s w).sentinelSet = true → (Arc.get_mut s w).weak = 1) := by
  unfold Arc.get_mut
  by_cases hw : w = 1
  · subst hw
    simp
  · simp [hw]

/-- Witness for C2: with both counts 1 access is granted, with a second Arc
alive (strong = 2) it is refused and the sentinel path still restores the
weak count to 1. -/
theorem get_mut_spec_witness :
    (Arc.get_mut 1 1).access = true ∧
    (Arc.get_mut 2 1).access = false ∧
    (Arc.get_mut 2 1).weak = 1 := by
  refine ⟨(get_mut_spec 1 1).1.mpr ⟨rfl, rfl⟩, ?_, (get_mut_spec 2 1).2.2.2.2 rfl⟩
  have h := (get_mut_spec 2 1).1
  exact Bool.eq_false_iff.mpr (fun hc => absurd (h.mp hc).2 (by norm_num))

/-! ## Arc.downgrade (C3) -/

/-- With the loop variable at the sentinel or at a value at most the count
limit while the weak count holds the sentinel, the downgrade loop keeps
spinning for any amount of fuel: it never returns and never writes the weak
count (the only write in the loop is its successful CAS). -/
theorem downgradeLoop_locked (s : Nat) (hs : s ≤ Arc.COUNT_LIMIT) :
    ∀ fuel : Nat,
      Arc.downgradeLoop fuel s s Arc.WEAK_COUNT_LOCKED_VAL = .spinning ∧
      Arc.downgradeLoop fuel Arc.WEAK_COUNT_LOCKED_VAL s
        Arc.WEAK_COUNT_LOCKED_VAL = .spinning := by
  intro fuel
  induction fuel with
  | zero => exact ⟨rfl, rfl⟩
  | succ fuel ih =>
      rw [COUNT_LIMIT_val] at hs
      constructor
      · show Arc.downgradeLoop (fuel + 1) s s Arc.WEAK_COUNT_LOCKED_VAL = .spinning
        unfold Arc.downgradeLoop
        rw [if_neg (by rw [WEAK_LOCKED_val]; omega),
          if_neg (by rw [COUNT_LIMIT_val]; omega),
          if_neg (by rw [WEAK_LOCKED_val]; omega)]
        exact ih.2
      · show Arc.downgradeLoop (fuel + 1) Arc.WEAK_COUNT_LOCKED_VAL s
          Arc.WEAK_COUNT_LOCKED_VAL = .spinning
        unfold Arc.downgradeLoop
        rw [if_pos rfl]
        exact ih.1

/-- C3: with the weak count free of the sentinel (both counts within the
safety bound), Arc.downgrade increments the weak count by exactly one and
leaves the strong count unchanged, returning a Weak handle to the same
allocation; while the weak count holds the sentinel (a get_mut check in
progress), the loop spins for any amount of fuel without returning and
without modifying the weak count. -/
theorem downgrade_spec :
    (∀ s w : Nat, s ≤ Arc.COUNT_LIMIT → w ≤ Arc.COUNT_LIMIT →
       Arc.downgrade 2 s w = .ok s (w + 1)) ∧
    (∀ (fuel s : Nat), s ≤ Arc.COUNT_LIMIT →
       Arc.downgrade fuel s Arc.WEAK_COUNT_LOCKED_VAL = .spinning) := by
  constructor
  · exact downgrade_ok
  · intro fuel s hs
    exact (downgradeLoop_locked s hs fuel).1

/-- Witness for C3: downgrading with strong = 1, weak = 2 yields weak = 3
with strong unchanged, and with the sentinel held the loop is still spinning
after 9 iterations of fuel. -/
theorem downgrade_spec_witness :
    Arc.downgrade 2 1 2 = .ok 1 3 ∧
    Arc.downgrade 9 1 Arc.WEAK_COUNT_LOCKED_VAL = .spinning :=
  ⟨downgrade_spec.1 1 2 (by rw [COUNT_LIMIT_val]; omega)
      (by rw [COUNT_LIMIT_val]; omega),
    downgrade_spec.2 9 1 (by rw [COUNT_LIMIT_val]; omega)⟩

/-! ## Oneshot channel destruction (C8, C10) -/

/-- C8: a OneshotChannel destroyed while the readiness flag is still set
(a value was sent but never received) runs the message destructor exactly
once; receive clears the readiness flag when it takes the value, after which
the channel destructor does not touch the message again.  The last conjunct
instantiates the full scenario from a fresh channel. -/
theorem oneshot_drop_spec :
    (∀ c : Oneshot.Channel, c.ready = true →
       (Oneshot.dropChannel c).msgDrops = c.msgDrops + 1) ∧
    (∀ c : Oneshot.Channel, c.ready = false → Oneshot.dropChannel c = c) ∧
    (∀ (c c2 : Oneshot.Channel) (v : Nat),
       Oneshot.receiveReady c = some (v, c2) →
       c2.ready = false ∧ Oneshot.dropChannel c2 = c2) ∧
    (∀ v : Nat,
       (Oneshot.dropChannel (Oneshot.send Oneshot.new v)).msgDrops = 1 ∧
       Oneshot.receiveReady (Oneshot.send Oneshot.new v) =
         some (v, { slot := none, ready := false, msgDrops := 0 })) := by
  refine ⟨?_, ?_, ?_, ?_⟩
  · intro c hc
    simp [Oneshot.dropChannel, hc]
  · intro c hc
    simp [Oneshot.dropChannel, hc]
  · intro c c2 v hrec
    unfold Oneshot.receiveReady at hrec
    by_cases hr : c.ready
    · rw [if_pos hr] at hrec
      match hslot : c.slot with
      | some w =>
          rw [hslot] at hrec
          have h2 : c2 = { c with ready := false, slot := none } :=
            (Prod.mk.injEq _ _ _ _ |>.mp (Option.some.injEq _ _ |>.mp hrec)).2.symm
          subst h2
          exact ⟨rfl, by simp [Oneshot.dropChannel]⟩
      | none =>
          rw [hslot] at hrec
          exact absurd hrec (by simp)
    · rw [if_neg hr] at hrec
      exact absurd hrec (by simp)
  · intro v
    exact ⟨rfl, rfl⟩

/-- Witness for C8 at the concrete message 5: drop after send destroys it
once; receive hands it out and clears readiness. -/
theorem oneshot_drop_spec_witness :
    (Oneshot.dropChannel (Oneshot.send Oneshot.new 5)).msgDrops = 1 ∧
    Oneshot.receiveReady (Oneshot.send Oneshot.new 5) =
      some (5, { slot := none, ready := false, msgDrops := 0 }) ∧
    (Oneshot.dropChannel { slot := none, ready := false, msgDrops := 0 }).msgDrops
      = 0 := by
  refine ⟨(oneshot_drop_spec.2.2.2 5).1, (oneshot_drop_spec.2.2.2 5).2, ?_⟩
  have h := oneshot_drop_spec.2.1 { slot := none, ready := false, msgDrops := 0 } rfl
  rw [h]

/-- C10: OneshotChannel.split first drops the previous channel value in
place, destroying a message that was sent but never received exactly once at
that moment, and then installs a fresh channel: immediately after split the
readiness flag is false and the message slot is uninitialized. -/
theorem oneshot_split_spec (c : Oneshot.Channel) :
    (Oneshot.split c).ready = false ∧
    (Oneshot.split c).slot = none ∧
    (Oneshot.split c).msgDrops = c.msgDrops + (if c.ready then 1 else 0) ∧
    (c.ready = true → (Oneshot.split c).msgDrops = c.msgDrops + 1) := by
  unfold Oneshot.split Oneshot.dropChannel
  by_cases hr : c.ready <;> simp [hr, Oneshot.new]

/-- Witness for C10: splitting a channel holding an unreceived message
destroys it exactly once and resets the storage. -/
theorem oneshot_split_spec_witness :
    (Oneshot.split (Oneshot.send Oneshot.new 5)).ready = false ∧
    (Oneshot.split (Oneshot.send Oneshot.new 5)).slot = none ∧
    (Oneshot.split (Oneshot.send Oneshot.new 5)).msgDrops = 1 := by
  refine ⟨(oneshot_split_spec (Oneshot.send Oneshot.new 5)).1,
    (oneshot_split_spec (Oneshot.send Oneshot.new 5)).2.1, ?_⟩
  exact (oneshot_split_spec (Oneshot.send Oneshot.new 5)).2.2.2 rfl

/-! ## Condvar generation counter (C9) -/

/-- Closed form for k notify_one calls observed by one parked waiter: the
u32 generation counter holds k modulo 2^32 and the waiter count stays 1. -/
theorem notifyIter_counter (k : Nat) :
    (Condvar.notifyIter k).counter = k % u32Mod ∧
    (Condvar.notifyIter k).waiters_count = 1 := by
  induction k with
  | zero => exact ⟨(Nat.zero_mod u32Mod).symm, rfl⟩
  | succ k ih =>
      refine ⟨?_, ?_⟩
      · show (Condvar.notify_one (Condvar.notifyIter k)).counter = (k + 1) % u32Mod
        unfold Condvar.notify_one
        rw [if_pos (by rw [ih.2]; exact one_ne_zero)]
        show ((Condvar.notifyIter k).counter + 1) % u32Mod = (k + 1) % u32Mod
        rw [ih.1, Nat.mod_add_mod]
      · show (Condvar.notify_one (Condvar.notifyIter k)).waiters_count = 1
        unfold Condvar.notify_one
        rw [if_pos (by rw [ih.2]; exact one_ne_zero)]
        exact ih.2

/-- Counterexample to C9 as stated: starting from a fresh Condvar with one
parked waiter, every one of the first 2^32 notify_one calls observes a
nonzero waiter count, yet the generation counter value after call 2^32
equals the initial value 0 again (the u32 fetch_add wrapped) and is smaller
than the value after call 2^32 - 1, so across this concrete sequence of
notify calls the counter both repeats and decreases. -/
theorem condvar_counter_wraps :
    (Condvar.notifyIter (2 ^ 32 - 1)).waiters_count ≠ 0 ∧
    (Condvar.notifyIter 0).counter = 0 ∧
    (Condvar.notifyIter (2 ^ 32 - 1)).counter = 2 ^ 32 - 1 ∧
    (Condvar.notifyIter (2 ^ 32)).counter = 0 ∧
    (Condvar.notifyIter (2 ^ 32)).counter <
      (Condvar.notifyIter (2 ^ 32 - 1)).counter := by
  have hlast := notifyIter_counter (2 ^ 32 - 1)
  have hwrap := notifyIter_counter (2 ^ 32)
  have h1 : (Condvar.notifyIter (2 ^ 32 - 1)).counter = 2 ^ 32 - 1 := by
    rw [hlast.1, u32Mod_val]
    norm_num
  have h2 : (Condvar.notifyIter (2 ^ 32)).counter = 0 := by
    rw [hwrap.1, u32Mod_val]
    norm_num
  refine ⟨by rw [hlast.2]; exact one_ne_zero, rfl, h1, h2, ?_⟩
  rw [h1, h2]
  norm_num

/-- C9 as amended: a notify_one or notify_all call observing a nonzero
waiter count advances the u32 generation counter by exactly one modulo 2^32,
a call observing zero waiters leaves the Condvar unchanged, and within any
window of fewer than 2^32 consecutive waiter-observed notify calls the
counter values are pairwise distinct (no repeat and no ABA reuse within the
window). -/
theorem condvar_counter_spec :
    (∀ cv : Condvar.CV, cv.waiters_count ≠ 0 →
       (Condvar.notify_one cv).counter = (cv.counter + 1) % u32Mod ∧
       (Condvar.notify_all cv).counter = (cv.counter + 1) % u32Mod) ∧
    (∀ cv : Condvar.CV, cv.waiters_count = 0 →
       Condvar.notify_one cv = cv ∧ Condvar.notify_all cv = cv) ∧
    (∀ i j : Nat, i < j → j - i < 2 ^ 32 →
       (Condvar.notifyIter i).counter ≠ (Condvar.notifyIter j).counter) := by
  refine ⟨?_, ?_, ?_⟩
  · intro cv hcv
    constructor
    · unfold Condvar.notify_one
      rw [if_pos hcv]
    · unfold Condvar.notify_all
      rw [if_pos hcv]
  · intro cv hcv
    constructor
    · unfold Condvar.notify_one
      rw [if_neg (by rw [hcv]; exact fun h => h rfl)]
    · unfold Condvar.notify_all
      rw [if_neg (by rw [hcv]; exact fun h => h rfl)]
  · intro i j hij hwin heq
    rw [(notifyIter_counter i).1, (notifyIter_counter j).1] at heq
    have hmod : Nat.ModEq u32Mod i j := heq
    have hdvd : u32Mod ∣ j - i := (Nat.modEq_iff_dvd' (Nat.le_of_lt hij)).mp hmod
    have hpos : 0 < j - i := by omega
    have hge : u32Mod ≤ j - i := Nat.le_of_dvd hpos hdvd
    rw [u32Mod_val] at hge
    omega

/-- Witness for the amended C9: one observed notify advances the counter
from 0 to 1, a notify with no waiters is a no-op, and the first two counter
values differ. -/
theorem condvar_counter_spec_witness :
    (Condvar.notify_one { counter := 0, waiters_count := 1 }).counter = 1 ∧
    Condvar.notify_one { counter := 5, waiters_count := 0 } =
      { counter := 5, waiters_count := 0 } ∧
    (Condvar.notifyIter 0).counter ≠ (Condvar.notifyIter 1).counter := by
  refine ⟨?_, ?_, ?_⟩
  · exact (condvar_counter_spec.1 { counter := 0, waiters_count := 1 }
      (by norm_num)).1
  · exact (condvar_counter_spec.2.1 { counter := 5, waiters_count := 0 } rfl).1
  · exact condvar_counter_spec.2.2 0 1 (by norm_num) (by norm_num)

/-! ## Arc/Weak lifecycle (C1) -/

/-- Every enabled Arc/Weak operation preserves the lifecycle invariant, and
changes the ghost destruction counters exactly at the announced transitions:
the payload destructor runs exactly on the step taking the strong count from
1 to 0, and the allocation is freed exactly on the step taking the weak
count from 1 to 0. -/
theorem arc_step (s s' : Arc.ArcState) (op : Arc.ArcOp) (hInv : Arc.Inv s)
    (h : Arc.applyOp s op = some s') :
    Arc.Inv s' ∧
    (s.strong = 1 ∧ s'.strong = 0 → s'.payloadDrops = s.payloadDrops + 1) ∧
    (¬(s.strong = 1 ∧ s'.strong = 0) → s'.payloadDrops = s.payloadDrops) ∧
    (s.weak = 1 ∧ s'.weak = 0 → s'.allocFrees = s.allocFrees + 1) ∧
    (¬(s.weak = 1 ∧ s'.weak = 0) → s'.allocFrees = s.allocFrees) := by
  obtain ⟨e1, e2, e3, b1, b2, p1, p2, f1, f2⟩ := hInv
  cases op with
  | cloneArc =>
      simp only [Arc.applyOp] at h
      split_ifs at h with ha hb
      injection h with hh
      subst hh
      rw [wadd_one_small s.strong (by omega)]
      unfold Arc.Inv
      dsimp only
      omega
  | dropArc =>
      simp only [Arc.applyOp, Arc.weakRelease] at h
      split_ifs at h with ha hb hc
      · injection h with hh
        subst hh
        rw [wsub1_small s.strong (by omega) b1, wsub1_small s.weak (by omega) b2]
        unfold Arc.Inv
        dsimp only
        omega
      · injection h with hh
        subst hh
        rw [wsub1_small s.strong (by omega) b1, wsub1_small s.weak (by omega) b2]
        unfold Arc.Inv
        dsimp only
        omega
      · injection h with hh
        subst hh
        rw [wsub1_small s.strong (by omega) b1]
        unfold Arc.Inv
        dsimp only
        omega
  | downgradeOp =>
      simp only [Arc.applyOp] at h
      split_ifs at h with ha
      by_cases hs : s.strong ≤ Arc.COUNT_LIMIT
      · by_cases hw : s.weak ≤ Arc.COUNT_LIMIT
        · rw [downgrade_ok s.strong s.weak hs hw] at h
          dsimp only at h
          injection h with hh
          subst hh
          unfold Arc.Inv
          dsimp only
          omega
        · rw [downgrade_panic_hi_weak s.strong s.weak hs (by omega)] at h
          exact Option.noConfusion h
      · rw [downgrade_panic_hi_strong s.strong s.weak (by omega)] at h
        exact Option.noConfusion h
  | cloneWeak =>
      simp only [Arc.applyOp] at h
      split_ifs at h with ha hb
      injection h with hh
      subst hh
      rw [wadd_one_small s.weak (by omega)]
      unfold Arc.Inv
      dsimp only
      omega
  | dropWeak =>
      simp only [Arc.applyOp, Arc.weakRelease] at h
      split_ifs at h with ha hb
      · injection h with hh
        subst hh
        rw [wsub1_small s.weak (by omega) b2]
        unfold Arc.Inv
        dsimp only
        omega
      · injection h with hh
        subst hh
        rw [wsub1_small s.weak (by omega) b2]
        unfold Arc.Inv
        dsimp only
        omega
  | upgrade =>
      simp only [Arc.applyOp] at h
      split_ifs at h with ha hb hc
      · injection h with hh
        subst hh
        unfold Arc.Inv
        omega
      · injection h with hh
        subst hh
        rw [wadd_one_small s.strong (by omega)]
        unfold Arc.Inv
        dsimp only
        omega

/-- The state made by Arc.new satisfies the lifecycle invariant. -/
theorem arc_inv_init : Arc.Inv Arc.initState := by
  unfold Arc.Inv Arc.initState
  dsimp only
  omega

/-- Running any operation sequence from an invariant state lands in an
invariant state. -/
theorem arc_inv_runFrom (ops : List Arc.ArcOp) :
    ∀ (s0 s : Arc.ArcState), Arc.Inv s0 → Arc.runFrom s0 ops = some s →
      Arc.Inv s := by
  induction ops with
  | nil =>
      intro s0 s h0 hrun
      injection hrun with hh
      exact hh ▸ h0
  | cons op rest ih =>
      intro s0 s h0 hrun
      unfold Arc.runFrom at hrun
      cases hstep : Arc.applyOp s0 op with
      | none => rw [hstep] at hrun; exact Option.noConfusion hrun
      | some s1 =>
          rw [hstep] at hrun
          exact ih s1 s (arc_step s0 s1 op h0 hstep).1 hrun

/-- C1: over every sequence of Arc/Weak operations valid on live handles,
the lifecycle invariant holds (in particular the payload-destruction count
is 1 exactly when no Arc is left and 0 before, and the allocation-free count
is 1 exactly when the weak count is 0 and 0 before); each step destroys the
payload exactly when the strong count transitions from 1 to 0 and frees the
allocation exactly when the weak count transitions from 1 to 0; and when
every handle has been dropped the payload has been destroyed exactly once
and the allocation freed exactly once. -/
theorem arc_lifecycle_spec :
    (∀ (ops : List Arc.ArcOp) (s : Arc.ArcState),
       Arc.runOps ops = some s → Arc.Inv s) ∧
    (∀ (s s' : Arc.ArcState) (op : Arc.ArcOp), Arc.Inv s →
       Arc.applyOp s op = some s' →
       (s.strong = 1 ∧ s'.strong = 0 → s'.payloadDrops = s.payloadDrops + 1) ∧
       (¬(s.strong = 1 ∧ s'.strong = 0) → s'.payloadDrops = s.payloadDrops) ∧
       (s.weak = 1 ∧ s'.weak = 0 → s'.allocFrees = s.allocFrees + 1) ∧
       (¬(s.weak = 1 ∧ s'.weak = 0) → s'.allocFrees = s.allocFrees)) ∧
    (∀ (ops : List Arc.ArcOp) (s : Arc.ArcState), Arc.runOps ops = some s →
       s.arcs = 0 → s.weaks = 0 → s.payloadDrops = 1 ∧ s.allocFrees = 1) := by
  refine ⟨?_, ?_, ?_⟩
  · intro ops s hrun
    exact arc_inv_runFrom ops Arc.initState s arc_inv_init hrun
  · intro s s' op hInv hstep
    exact (arc_step s s' op hInv hstep).2
  · intro ops s hrun ha hw
    obtain ⟨e1, e2, e3, b1, b2, p1, p2, f1, f2⟩ :=
      arc_inv_runFrom ops Arc.initState s arc_inv_init hrun
    have hweak : s.weak = 0 := by rw [e2 ha, hw]
    exact ⟨p1 ha, f1 hweak⟩

/-- Witness for C1: downgrade once, drop the Arc, drop the Weak; the run
succeeds, all handles are gone, and both destruction events happened exactly
once. -/
theorem arc_lifecycle_spec_witness :
    Arc.runOps [Arc.ArcOp.downgradeOp, Arc.ArcOp.dropArc, Arc.ArcOp.dropWeak] =
      some ⟨0, 0, 0, 0, 1, 1⟩ ∧
    (0 : Nat) = 0 ∧
    ((⟨0, 0, 0, 0, 1, 1⟩ : Arc.ArcState).payloadDrops = 1 ∧
     (⟨0, 0, 0, 0, 1, 1⟩ : Arc.ArcState).allocFrees = 1) := by
  have hrun : Arc.runOps
      [Arc.ArcOp.downgradeOp, Arc.ArcOp.dropArc, Arc.ArcOp.dropWeak] =
      some ⟨0, 0, 0, 0, 1, 1⟩ := by decide
  exact ⟨hrun, rfl,
    arc_lifecycle_spec.2.2
      [Arc.ArcOp.downgradeOp, Arc.ArcOp.dropArc, Arc.ArcOp.dropWeak]
      ⟨0, 0, 0, 0, 1, 1⟩ hrun rfl rfl⟩

/-! ## Lock-protected counter increments (C4) -/

/-- Reading position j of a list updated at position i: either j is the
updated in-range position and yields the new element, or it reads the
original list. -/
theorem getElem?_set_cases {α : Type} {l : List α} {i j : Nat} {x t : α}
    (h : (l.set i x)[j]? = some t) :
    (j = i ∧ i < l.length ∧ t = x) ∨ (j ≠ i ∧ l[j]? = some t) := by
  by_cases hij : j = i
  · subst hij
    by_cases hlt : j < l.length
    · rw [List.getElem?_set_eq_of_lt x hlt] at h
      injection h with hh
      exact Or.inl ⟨rfl, hlt, hh.symm⟩
    · exfalso
      have hnone : (l.set j x)[j]? = none := by
        apply List.getElem?_eq_none
        simpa using Nat.le_of_not_lt hlt
      rw [hnone] at h
      exact Option.noConfusion h
  · refine Or.inr ⟨hij, ?_⟩
    rw [List.getElem?_set_ne (fun hE => hij hE.symm)] at h
    exact h

/-- A pointwise property of the elements survives a set whose new element
also satisfies it. -/
theorem forall_getElem_set {α : Type} (P : α → Prop) {l : List α} {i : Nat}
    {x : α} (hall : ∀ (j : Nat) (t : α), l[j]? = some t → P t) (hx : P x) :
    ∀ (j : Nat) (t : α), (l.set i x)[j]? = some t → P t := by
  intro j t hj
  rcases getElem?_set_cases hj with ⟨_, _, ht⟩ | ⟨_, hj2⟩
  · exact ht ▸ hx
  · exact hall j t hj2

/-- Updating the position of the unique lock holder keeps at most one
holder, whatever the new element is. -/
theorem me_set_holder {l : List LockSim.TState} {i : Nat}
    {t t' : LockSim.TState} (hti : l[i]? = some t)
    (hh : LockSim.holdingB t.ph = true)
    (hme : ∀ (p q : Nat) (tp tq : LockSim.TState), l[p]? = some tp →
      l[q]? = some tq → LockSim.holdingB tp.ph = true →
      LockSim.holdingB tq.ph = true → p = q) :
    ∀ (p q : Nat) (tp tq : LockSim.TState), (l.set i t')[p]? = some tp →
      (l.set i t')[q]? = some tq → LockSim.holdingB tp.ph = true →
      LockSim.holdingB tq.ph = true → p = q := by
  have key : ∀ (p : Nat) (tp : LockSim.TState), (l.set i t')[p]? = some tp →
      LockSim.holdingB tp.ph = true → p = i := by
    intro p tp hp hhp
    rcases getElem?_set_cases hp with ⟨hpi, _, _⟩ | ⟨_, hp2⟩
    · exact hpi
    · exact hme p i tp t hp2 hti hhp hh
  intro p q tp tq hp hq hhp hhq
  rw [key p tp hp hhp, key q tq hq hhq]

/-- When no element of the old list holds the lock, at most one element of
the updated list does. -/
theorem me_set_none {l : List LockSim.TState} {i : Nat} {t' : LockSim.TState}
    (hnone : ∀ (p : Nat) (tp : LockSim.TState), l[p]? = some tp →
      LockSim.holdingB tp.ph = false) :
    ∀ (p q : Nat) (tp tq : LockSim.TState), (l.set i t')[p]? = some tp →
      (l.set i t')[q]? = some tq → LockSim.holdingB tp.ph = true →
      LockSim.holdingB tq.ph = true → p = q := by
  have key : ∀ (p : Nat) (tp : LockSim.TState), (l.set i t')[p]? = some tp →
      LockSim.holdingB tp.ph = true → p = i := by
    intro p tp hp hhp
    rcases getElem?_set_cases hp with ⟨hpi, _, _⟩ | ⟨_, hp2⟩
    · exact hpi
    · have := hnone p tp hp2
      rw [this] at hhp
      exact absurd hhp Bool.false_ne_true
  intro p q tp tq hp hq hhp hhq
  rw [key p tp hp hhp, key q tq hq hhq]

/-- Updating one position with a non-holding element preserves
at-most-one-holder. -/
theorem me_set_not_holding {l : List LockSim.TState} {i : Nat}
    {t' : LockSim.TState} (hnh : LockSim.holdingB t'.ph = false)
    (hme : ∀ (p q : Nat) (tp tq : LockSim.TState), l[p]? = some tp →
      l[q]? = some tq → LockSim.holdingB tp.ph = true →
      LockSim.holdingB tq.ph = true → p = q) :
    ∀ (p q : Nat) (tp tq : LockSim.TState), (l.set i t')[p]? = some tp →
      (l.set i t')[q]? = some tq → LockSim.holdingB tp.ph = true →
      LockSim.holdingB tq.ph = true → p = q := by
  intro p q tp tq hp hq hhp hhq
  rcases getElem?_set_cases hp with ⟨_, _, htp⟩ | ⟨hpne, hp2⟩
  · rw [htp, hnh] at hhp
    exact absurd hhp Bool.false_ne_true
  · rcases getElem?_set_cases hq with ⟨_, _, htq⟩ | ⟨hqne, hq2⟩
    · rw [htq, hnh] at hhq
      exact absurd hhq Bool.false_ne_true
    · exact hme p q tp tq hp2 hq2 hhp hhq

/-- Setting position i changes a mapped sum by replacing the image of the
old element with the image of the new one. -/
theorem map_sum_set {α : Type} (f : α → Nat) (l : List α) :
    ∀ (i : Nat) (t x : α), l[i]? = some t →
      ((l.set i x).map f).sum + f t = (l.map f).sum + f x := by
  induction l with
  | nil => intro i t x h; exact Option.noConfusion h
  | cons a l ih =>
      intro i t x h
      cases i with
      | zero =>
          rw [List.getElem?_cons_zero] at h
          injection h with hh
          subst hh
          simp only [List.set, List.map, List.sum_cons]
          omega
      | succ i =>
          rw [List.getElem?_cons_succ] at h
          simp only [List.set, List.map, List.sum_cons]
          have := ih i t x h
          omega

/-- When every element contributes exactly N, the mapped sum is N times the
length. -/
theorem sum_const_of_done (N : Nat) (l : List LockSim.TState) :
    (∀ (i : Nat) (t : LockSim.TState), l[i]? = some t →
      LockSim.contrib N t = N) →
    (l.map (LockSim.contrib N)).sum = N * l.length := by
  induction l with
  | nil => intro _; simp
  | cons a l ih =>
      intro h
      have ha : LockSim.contrib N a = N := h 0 a (by rw [List.getElem?_cons_zero])
      have hrest : ∀ (i : Nat) (t : LockSim.TState), l[i]? = some t →
          LockSim.contrib N t = N := by
        intro i t hh
        exact h (i + 1) t (by rw [List.getElem?_cons_succ]; exact hh)
      simp only [List.map, List.sum_cons, List.length_cons, ha, ih hrest]
      ring

theorem contrib_of_ph (N : Nat) (t : LockSim.TState)
    (h : t.ph ≠ LockSim.Ph.unlockT) : LockSim.contrib N t = N - t.rem := by
  unfold LockSim.contrib
  rw [if_neg h]
  omega

theorem contrib_of_unlockT (N : Nat) (t : LockSim.TState)
    (h : t.ph = LockSim.Ph.unlockT) : LockSim.contrib N t = (N - t.rem) + 1 := by
  unfold LockSim.contrib
  rw [if_pos h]

/-- One step never changes the number of threads. -/
theorem stepCfg_length {L A : Type} (acquire : L → A → L × Bool)
    (release : L → L) (c c' : LockSim.Cfg L) (act : LockSim.Act A)
    (h : LockSim.stepCfg acquire release c act = some c') :
    c'.threads.length = c.threads.length := by
  cases act with
  | acq i a =>
      simp only [LockSim.stepCfg] at h
      cases hti : c.threads[i]? with
      | none => rw [hti] at h; exact Option.noConfusion h
      | some t =>
          rw [hti] at h
          dsimp only at h
          split_ifs at h
          all_goals
            injection h with hh
            rw [← hh]
            simp
  | rd i =>
      simp only [LockSim.stepCfg] at h
      cases hti : c.threads[i]? with
      | none => rw [hti] at h; exact Option.noConfusion h
      | some t =>
          rw [hti] at h
          dsimp only at h
          split_ifs at h
          all_goals
            injection h with hh
            rw [← hh]
            simp
  | wr i =>
      simp only [LockSim.stepCfg] at h
      cases hti : c.threads[i]? with
      | none => rw [hti] at h; exact Option.noConfusion h
      | some t =>
          rw [hti] at h
          dsimp only at h
          cases hph : t.ph <;> rw [hph] at h <;> dsimp only at h <;>
            try exact Option.noConfusion h
          case writeT tmp =>
            injection h with hh
            rw [← hh]
            simp
  | rel i =>
      simp only [LockSim.stepCfg] at h
      cases hti : c.threads[i]? with
      | none => rw [hti] at h; exact Option.noConfusion h
      | some t =>
          rw [hti] at h
          dsimp only at h
          split_ifs at h
          all_goals
            injection h with hh
            rw [← hh]
            simp

/-- Every enabled step of the interleaving semantics preserves the global
invariant, for any lock whose acquire instructions grant only on a free lock
word and leave it non-free, whose acquire instructions never free the word,
and whose release frees it. -/
theorem lock_inv_step {L A : Type} (acquire : L → A → L × Bool)
    (release : L → L) (free : L → Bool)
    (Hgrant : ∀ (l : L) (a : A), (acquire l a).2 = true → free l = true)
    (HgrantNF : ∀ (l : L) (a : A), (acquire l a).2 = true →
      free (acquire l a).1 = false)
    (Hkeep : ∀ (l : L) (a : A), free l = false → free (acquire l a).1 = false)
    (N : Nat) (c c' : LockSim.Cfg L) (act : LockSim.Act A)
    (hInv : LockSim.Inv free N c)
    (h : LockSim.stepCfg acquire release c act = some c') :
    LockSim.Inv free N c' := by
  obtain ⟨hME, hFree, hT, hW, hSum⟩ := hInv
  cases act with
  | acq i a =>
      simp only [LockSim.stepCfg] at h
      cases hti : c.threads[i]? with
      | none => rw [hti] at h; exact Option.noConfusion h
      | some t =>
          rw [hti] at h
          dsimp only at h
          split_ifs at h with hph hg
          · -- the acquire instruction granted the lock
            injection h with hh
            subst hh
            have hfr : free c.lock = true := Hgrant c.lock a hg
            have hnone : ∀ (p : Nat) (tp : LockSim.TState),
                c.threads[p]? = some tp → LockSim.holdingB tp.ph = false :=
              hFree hfr
            refine ⟨me_set_none hnone, ?_, ?_, ?_, ?_⟩
            · intro hfree2
              rw [HgrantNF c.lock a hg] at hfree2
              exact absurd hfree2 Bool.false_ne_true
            · refine forall_getElem_set (LockSim.TInv N) hT ?_
              have ht := hT i t hti
              unfold LockSim.TInv at ht ⊢
              dsimp only
              refine ⟨ht.1, ?_, ?_⟩
              · intro hE
                exact absurd hE (by simp)
              · intro _
                exact ht.2.2 (by rw [hph]; simp)
            · intro j u tmp hj hwp
              rcases getElem?_set_cases hj with ⟨_, _, hu⟩ | ⟨_, hj2⟩
              · rw [hu] at hwp
                exact absurd hwp (by simp)
              · exact hW j u tmp hj2 hwp
            · have hms := map_sum_set (LockSim.contrib N) c.threads i t
                ⟨t.rem, .readT⟩ hti
              have hc1 : LockSim.contrib N t = N - t.rem :=
                contrib_of_ph N t (by rw [hph]; simp)
              have hc2 : LockSim.contrib N ⟨t.rem, .readT⟩ = N - t.rem :=
                contrib_of_ph N ⟨t.rem, .readT⟩ (by simp)
              dsimp only
              omega
          · -- the acquire instruction failed; the thread stays trying
            injection h with hh
            subst hh
            refine ⟨me_set_not_holding rfl hME, ?_, ?_, ?_, ?_⟩
            · intro hfree2 j u hj
              rcases getElem?_set_cases hj with ⟨_, _, hu⟩ | ⟨_, hj2⟩
              · rw [hu]
                rfl
              · by_cases hfl : free c.lock = true
                · exact hFree hfl j u hj2
                · rw [Hkeep c.lock a (Bool.not_eq_true _ ▸ hfl)] at hfree2
                  exact absurd hfree2 Bool.false_ne_true
            · refine forall_getElem_set (LockSim.TInv N) hT ?_
              have ht := hT i t hti
              unfold LockSim.TInv at ht ⊢
              dsimp only
              refine ⟨ht.1, ?_, ?_⟩
              · intro hE
                exact absurd hE (by simp)
              · intro _
                exact ht.2.2 (by rw [hph]; simp)
            · intro j u tmp hj hwp
              rcases getElem?_set_cases hj with ⟨_, _, hu⟩ | ⟨_, hj2⟩
              · rw [hu] at hwp
                exact absurd hwp (by simp)
              · exact hW j u tmp hj2 hwp
            · have hms := map_sum_set (LockSim.contrib N) c.threads i t
                ⟨t.rem, .lockT⟩ hti
              have hc1 : LockSim.contrib N t = N - t.rem :=
                contrib_of_ph N t (by rw [hph]; simp)
              have hc2 : LockSim.contrib N ⟨t.rem, .lockT⟩ = N - t.rem :=
                contrib_of_ph N ⟨t.rem, .lockT⟩ (by simp)
              dsimp only
              omega
  | rd i =>
      simp only [LockSim.stepCfg] at h
      cases hti : c.threads[i]? with
      | none => rw [hti] at h; exact Option.noConfusion h
      | some t =>
          rw [hti] at h
          dsimp only at h
          split_ifs at h with hph
          injection h with hh
          subst hh
          have hhold : LockSim.holdingB t.ph = true := by rw [hph]; rfl
          refine ⟨me_set_holder hti hhold hME, ?_, ?_, ?_, ?_⟩
          · intro hfree2
            have := hFree hfree2 i t hti
            rw [hhold] at this
            exact absurd this (by simp)
          · refine forall_getElem_set (LockSim.TInv N) hT ?_
            have ht := hT i t hti
            unfold LockSim.TInv at ht ⊢
            dsimp only
            refine ⟨ht.1, ?_, ?_⟩
            · intro hE
              exact absurd hE (by simp)
            · intro _
              exact ht.2.2 (by rw [hph]; simp)
          · intro j u tmp hj hwp
            rcases getElem?_set_cases hj with ⟨_, _, hu⟩ | ⟨_, hj2⟩
            · rw [hu] at hwp
              dsimp only at hwp
              injection hwp with hE
              exact hE.symm
            · exact hW j u tmp hj2 hwp
          · have hms := map_sum_set (LockSim.contrib N) c.threads i t
              ⟨t.rem, .writeT c.counter⟩ hti
            have hc1 : LockSim.contrib N t = N - t.rem :=
              contrib_of_ph N t (by rw [hph]; simp)
            have hc2 : LockSim.contrib N ⟨t.rem, .writeT c.counter⟩ = N - t.rem :=
              contrib_of_ph N ⟨t.rem, .writeT c.counter⟩ (by simp)
            dsimp only
            omega
  | wr i =>
      simp only [LockSim.stepCfg] at h
      cases hti : c.threads[i]? with
      | none => rw [hti] at h; exact Option.noConfusion h
      | some t =>
          rw [hti] at h
          dsimp only at h
          cases hph : t.ph <;> rw [hph] at h <;> dsimp only at h <;>
            try exact Option.noConfusion h
          case writeT tmp0 =>
            injection h with hh
            subst hh
            have htmp : tmp0 = c.counter := hW i t tmp0 hti hph
            have hhold : LockSim.holdingB t.ph = true := by rw [hph]; rfl
            refine ⟨me_set_holder hti hhold hME, ?_, ?_, ?_, ?_⟩
            · intro hfree2
              have := hFree hfree2 i t hti
              rw [hhold] at this
              exact absurd this (by simp)
            · refine forall_getElem_set (LockSim.TInv N) hT ?_
              have ht := hT i t hti
              unfold LockSim.TInv at ht ⊢
              dsimp only
              refine ⟨ht.1, ?_, ?_⟩
              · intro hE
                exact absurd hE (by simp)
              · intro _
                exact ht.2.2 (by rw [hph]; simp)
            · intro j u tmp hj hwp
              rcases getElem?_set_cases hj with ⟨_, _, hu⟩ | ⟨hjne, hj2⟩
              · rw [hu] at hwp
                exact absurd hwp (by simp)
              · exfalso
                have hhu : LockSim.holdingB u.ph = true := by rw [hwp]; rfl
                exact hjne (hME j i u t hj2 hti hhu hhold)
            · have hms := map_sum_set (LockSim.contrib N) c.threads i t
                ⟨t.rem, .unlockT⟩ hti
              have hc1 : LockSim.contrib N t = N - t.rem :=
                contrib_of_ph N t (by rw [hph]; simp)
              have hc2 : LockSim.contrib N ⟨t.rem, .unlockT⟩ = (N - t.rem) + 1 :=
                contrib_of_unlockT N ⟨t.rem, .unlockT⟩ rfl
              dsimp only
              omega
  | rel i =>
      simp only [LockSim.stepCfg] at h
      cases hti : c.threads[i]? with
      | none => rw [hti] at h; exact Option.noConfusion h
      | some t =>
          rw [hti] at h
          dsimp only at h
          split_ifs at h with hph hrem
          · -- last cycle of this thread: it retires
            injection h with hh
            subst hh
            have hhold : LockSim.holdingB t.ph = true := by rw [hph]; rfl
            have ht := hT i t hti
            refine ⟨me_set_holder hti hhold hME, ?_, ?_, ?_, ?_⟩
            · intro _ j u hj
              rcases getElem?_set_cases hj with ⟨_, _, hu⟩ | ⟨hjne, hj2⟩
              · rw [hu]
                rfl
              · cases hbu : LockSim.holdingB u.ph with
                | false => rfl
                | true => exact absurd (hME j i u t hj2 hti hbu hhold) hjne
            · refine forall_getElem_set (LockSim.TInv N) hT ?_
              unfold LockSim.TInv
              dsimp only
              exact ⟨Nat.zero_le N, fun _ => rfl, fun hnd => absurd rfl hnd⟩
            · intro j u tmp hj hwp
              rcases getElem?_set_cases hj with ⟨_, _, hu⟩ | ⟨_, hj2⟩
              · rw [hu] at hwp
                exact absurd hwp (by simp)
              · exact hW j u tmp hj2 hwp
            · have hms := map_sum_set (LockSim.contrib N) c.threads i t
                ⟨0, .doneT⟩ hti
              have hc1 : LockSim.contrib N t = (N - t.rem) + 1 :=
                contrib_of_unlockT N t hph
              have hc2 : LockSim.contrib N ⟨0, .doneT⟩ = N := by
                rw [contrib_of_ph N ⟨0, .doneT⟩ (by simp)]
                dsimp only
                omega
              have hrem1 : 1 ≤ t.rem := ht.2.2 (by rw [hph]; simp)
              have hremN : t.rem ≤ N := ht.1
              dsimp only
              omega
          · -- more cycles to go: back to trying
            injection h with hh
            subst hh
            have hhold : LockSim.holdingB t.ph = true := by rw [hph]; rfl
            have ht := hT i t hti
            refine ⟨me_set_holder hti hhold hME, ?_, ?_, ?_, ?_⟩
            · intro _ j u hj
              rcases getElem?_set_cases hj with ⟨_, _, hu⟩ | ⟨hjne, hj2⟩
              · rw [hu]
                rfl
              · cases hbu : LockSim.holdingB u.ph with
                | false => rfl
                | true => exact absurd (hME j i u t hj2 hti hbu hhold) hjne
            · refine forall_getElem_set (LockSim.TInv N) hT ?_
              unfold LockSim.TInv
              dsimp only
              have hremN : t.rem ≤ N := ht.1
              refine ⟨by omega, ?_, ?_⟩
              · intro hE
                exact absurd hE (by simp)
              · intro _
                omega
            · intro j u tmp hj hwp
              rcases getElem?_set_cases hj with ⟨_, _, hu⟩ | ⟨_, hj2⟩
              · rw [hu] at hwp
                exact absurd hwp (by simp)
              · exact hW j u tmp hj2 hwp
            · have hms := map_sum_set (LockSim.contrib N) c.threads i t
                ⟨t.rem - 1, .lockT⟩ hti
              have hc1 : LockSim.contrib N t = (N - t.rem) + 1 :=
                contrib_of_unlockT N t hph
              have hc2 : LockSim.contrib N ⟨t.rem - 1, .lockT⟩ = N - (t.rem - 1) :=
                contrib_of_ph N ⟨t.rem - 1, .lockT⟩ (by simp)
              have hremN : t.rem ≤ N := ht.1
              dsimp only
              omega

/-- The initial configuration satisfies the invariant for any lock word. -/
theorem lock_inv_init {L : Type} (free : L → Bool) (l0 : L) (N T : Nat) :
    LockSim.Inv free N (LockSim.initCfg l0 N T) := by
  have key : ∀ (t0 : LockSim.TState), LockSim.holdingB t0.ph = false →
      LockSim.TInv N t0 → (∀ tmp : Nat, t0.ph ≠ .writeT tmp) →
      LockSim.contrib N t0 = 0 →
      LockSim.Inv free N
        { lock := l0, counter := 0, threads := List.replicate T t0 } := by
    intro t0 hh hti hwp hc
    have hrep : ∀ (j : Nat) (u : LockSim.TState),
        (List.replicate T t0)[j]? = some u → u = t0 :=
      fun j u hj => List.eq_of_mem_replicate (List.getElem?_mem hj)
    refine ⟨?_, ?_, ?_, ?_, ?_⟩
    · intro p q tp tq hp hq hhp hhq
      exfalso
      rw [hrep p tp hp, hh] at hhp
      exact absurd hhp (by simp)
    · intro _ j u hj
      rw [hrep j u hj]
      exact hh
    · intro j u hj
      rw [hrep j u hj]
      exact hti
    · intro j u tmp hj hwpu
      rw [hrep j u hj] at hwpu
      exact absurd hwpu (hwp tmp)
    · dsimp only
      rw [List.map_replicate, hc, List.sum_replicate]
      simp
  unfold LockSim.initCfg
  by_cases hN : N = 0
  · subst hN
    rw [if_pos rfl]
    refine key ⟨0, .doneT⟩ rfl
      ⟨Nat.le_refl 0, fun _ => rfl, fun hnd => absurd rfl hnd⟩
      (fun tmp hE => by simp at hE) ?_
    rw [contrib_of_ph 0 ⟨0, .doneT⟩ (by simp)]
    simp
  · rw [if_neg hN]
    have h1N : 1 ≤ N := by omega
    refine key ⟨N, .lockT⟩ rfl
      ⟨Nat.le_refl N, fun hE => absurd hE (by simp), fun _ => h1N⟩
      (fun tmp hE => by simp at hE) ?_
    rw [contrib_of_ph N ⟨N, .lockT⟩ (by simp)]
    dsimp only
    omega

/-- Running any schedule from an invariant configuration lands in an
invariant configuration with the same number of threads. -/
theorem lock_inv_run {L A : Type} (acquire : L → A → L × Bool)
    (release : L → L) (free : L → Bool)
    (Hgrant : ∀ (l : L) (a : A), (acquire l a).2 = true → free l = true)
    (HgrantNF : ∀ (l : L) (a : A), (acquire l a).2 = true →
      free (acquire l a).1 = false)
    (Hkeep : ∀ (l : L) (a : A), free l = false → free (acquire l a).1 = false)
    (N : Nat) (acts : List (LockSim.Act A)) :
    ∀ (c c' : LockSim.Cfg L), LockSim.Inv free N c →
      LockSim.run acquire release c acts = some c' →
      LockSim.Inv free N c' ∧ c'.threads.length = c.threads.length := by
  induction acts with
  | nil =>
      intro c c' h0 hrun
      injection hrun with hh
      subst hh
      exact ⟨h0, rfl⟩
  | cons act rest ih =>
      intro c c' h0 hrun
      unfold LockSim.run at hrun
      cases hstep : LockSim.stepCfg acquire release c act with
      | none => rw [hstep] at hrun; exact Option.noConfusion hrun
      | some c1 =>
          rw [hstep] at hrun
          dsimp only at hrun
          have h1 := lock_inv_step acquire release free Hgrant HgrantNF Hkeep
            N c c1 act h0 hstep
          have hlen := stepCfg_length acquire release c c1 act hstep
          have hrest := ih c1 c' h1 hrun
          exact ⟨hrest.1, hrest.2.trans hlen⟩

/-- Generic form of the counter theorem: over every schedule from the
initial configuration, mutual exclusion holds, and if all threads finished,
the shared counter is exactly N times the thread count. -/
theorem lock_run_counter {L A : Type} (acquire : L → A → L × Bool)
    (release : L → L) (free : L → Bool)
    (Hgrant : ∀ (l : L) (a : A), (acquire l a).2 = true → free l = true)
    (HgrantNF : ∀ (l : L) (a : A), (acquire l a).2 = true →
      free (acquire l a).1 = false)
    (Hkeep : ∀ (l : L) (a : A), free l = false → free (acquire l a).1 = false)
    (l0 : L) (N T : Nat) (acts : List (LockSim.Act A)) (c : LockSim.Cfg L)
    (hrun : LockSim.run acquire release (LockSim.initCfg l0 N T) acts = some c) :
    LockSim.MutualExclusion c ∧ (LockSim.AllDone c → c.counter = N * T) := by
  obtain ⟨⟨hME, hFree, hT, hW, hSum⟩, hlen⟩ :=
    lock_inv_run acquire release free Hgrant HgrantNF Hkeep N acts
      (LockSim.initCfg l0 N T) c (lock_inv_init free l0 N T) hrun
  refine ⟨hME, ?_⟩
  intro hdone
  have hcontrib : ∀ (i : Nat) (t : LockSim.TState), c.threads[i]? = some t →
      LockSim.contrib N t = N := by
    intro i t hti
    have hd := hdone i t hti
    have ht := hT i t hti
    have hrem : t.rem = 0 := ht.2.1 hd
    rw [contrib_of_ph N t (by rw [hd]; simp), hrem]
    omega
  rw [hSum, sum_const_of_done N c.threads hcontrib, hlen]
  unfold LockSim.initCfg
  dsimp only
  rw [List.length_replicate]

/-- The two mutex acquire instructions grant only on state 0, always leave
a nonzero state behind when granting, and never free a held lock. -/
theorem mutexAcquire_facts :
    (∀ (l : Nat) (a : Bool), (LockSim.mutexAcquire l a).2 = true →
       LockSim.mutexFree l = true) ∧
    (∀ (l : Nat) (a : Bool), (LockSim.mutexAcquire l a).2 = true →
       LockSim.mutexFree (LockSim.mutexAcquire l a).1 = false) ∧
    (∀ (l : Nat) (a : Bool), LockSim.mutexFree l = false →
       LockSim.mutexFree (LockSim.mutexAcquire l a).1 = false) := by
  refine ⟨?_, ?_, ?_⟩ <;> intro l a <;> cases a <;>
    simp only [LockSim.mutexAcquire, LockSim.mutexFree] <;>
    by_cases hl : l = 0 <;> simp [hl]

/-- The spin lock swap instruction grants only on a false flag, always
leaves the flag true, and never frees a held lock. -/
theorem spinAcquire_facts :
    (∀ (l : Bool) (a : Unit), (LockSim.spinAcquire l a).2 = true →
       LockSim.spinFree l = true) ∧
    (∀ (l : Bool) (a : Unit), (LockSim.spinAcquire l a).2 = true →
       LockSim.spinFree (LockSim.spinAcquire l a).1 = false) ∧
    (∀ (l : Bool) (a : Unit), LockSim.spinFree l = false →
       LockSim.spinFree (LockSim.spinAcquire l a).1 = false) := by
  refine ⟨?_, ?_, ?_⟩ <;> intro l a <;> cases l <;>
    simp [LockSim.spinAcquire, LockSim.spinFree]

/-- C4: for any thread count T and per-thread quota N, over every
interleaving of the atomic instructions of the Mutex-guarded (respectively
SpinLock-guarded) increment program, at most one thread holds the lock at
any time, and every run in which all threads finished leaves the shared
counter at exactly N times T. -/
theorem lock_counter_spec :
    (∀ (N T : Nat) (acts : List (LockSim.Act Bool)) (c : LockSim.Cfg Nat),
       LockSim.run LockSim.mutexAcquire LockSim.mutexRelease
         (LockSim.initCfg 0 N T) acts = some c →
       LockSim.MutualExclusion c ∧ (LockSim.AllDone c → c.counter = N * T)) ∧
    (∀ (N T : Nat) (acts : List (LockSim.Act Unit)) (c : LockSim.Cfg Bool),
       LockSim.run LockSim.spinAcquire LockSim.spinRelease
         (LockSim.initCfg false N T) acts = some c →
       LockSim.MutualExclusion c ∧ (LockSim.AllDone c → c.counter = N * T)) := by
  constructor
  · intro N T acts c hrun
    exact lock_run_counter LockSim.mutexAcquire LockSim.mutexRelease
      LockSim.mutexFree mutexAcquire_facts.1 mutexAcquire_facts.2.1
      mutexAcquire_facts.2.2 0 N T acts c hrun
  · intro N T acts c hrun
    exact lock_run_counter LockSim.spinAcquire LockSim.spinRelease
      LockSim.spinFree spinAcquire_facts.1 spinAcquire_facts.2.1
      spinAcquire_facts.2.2 false N T acts c hrun

/-- Witness for C4: two threads, one increment each.  Thread 0 takes the
mutex by the fast compare_exchange, thread 1 by the contended swap; both
runs finish with counter 2 = 1 * 2, and likewise for the spin lock. -/
theorem lock_counter_spec_witness :
    LockSim.run LockSim.mutexAcquire LockSim.mutexRelease
      (LockSim.initCfg 0 1 2)
      [.acq 0 true, .rd 0, .wr 0, .rel 0, .acq 1 false, .rd 1, .wr 1, .rel 1] =
      some ⟨0, 2, [⟨0, .doneT⟩, ⟨0, .doneT⟩]⟩ ∧
    (⟨0, 2, [⟨0, .doneT⟩, ⟨0, .doneT⟩]⟩ : LockSim.Cfg Nat).counter = 1 * 2 ∧
    LockSim.run LockSim.spinAcquire LockSim.spinRelease
      (LockSim.initCfg false 1 2)
      [.acq 0 (), .rd 0, .wr 0, .rel 0, .acq 1 (), .rd 1, .wr 1, .rel 1] =
      some ⟨false, 2, [⟨0, .doneT⟩, ⟨0, .doneT⟩]⟩ ∧
    (⟨false, 2, [⟨0, .doneT⟩, ⟨0, .doneT⟩]⟩ : LockSim.Cfg Bool).counter = 1 * 2 := by
  have hdoneM : LockSim.AllDone
      (⟨0, 2, [⟨0, .doneT⟩, ⟨0, .doneT⟩]⟩ : LockSim.Cfg Nat) := by
    intro i t h
    rcases i with _ | _ | i
    · rw [List.getElem?_cons_zero] at h
      injection h with hh
      rw [← hh]
    · rw [List.getElem?_cons_succ, List.getElem?_cons_zero] at h
      injection h with hh
      rw [← hh]
    · rw [List.getElem?_cons_succ, List.getElem?_cons_succ,
        List.getElem?_nil] at h
      exact Option.noConfusion h
  have hdoneS : LockSim.AllDone
      (⟨false, 2, [⟨0, .doneT⟩, ⟨0, .doneT⟩]⟩ : LockSim.Cfg Bool) := by
    intro i t h
    rcases i with _ | _ | i
    · rw [List.getElem?_cons_zero] at h
      injection h with hh
      rw [← hh]
    · rw [List.getElem?_cons_succ, List.getElem?_cons_zero] at h
      injection h with hh
      rw [← hh]
    · rw [List.getElem?_cons_succ, List.getElem?_cons_succ,
        List.getElem?_nil] at h
      exact Option.noConfusion h
  have hrunM : LockSim.run LockSim.mutexAcquire LockSim.mutexRelease
      (LockSim.initCfg 0 1 2)
      [.acq 0 true, .rd 0, .wr 0, .rel 0, .acq 1 false, .rd 1, .wr 1, .rel 1] =
      some ⟨0, 2, [⟨0, .doneT⟩, ⟨0, .doneT⟩]⟩ := by decide
  have hrunS : LockSim.run LockSim.spinAcquire LockSim.spinRelease
      (LockSim.initCfg false 1 2)
      [.acq 0 (), .rd 0, .wr 0, .rel 0, .acq 1 (), .rd 1, .wr 1, .rel 1] =
      some ⟨false, 2, [⟨0, .doneT⟩, ⟨0, .doneT⟩]⟩ := by decide
  refine ⟨hrunM, ?_, hrunS, ?_⟩
  · exact (lock_counter_spec.1 1 2
      [.acq 0 true, .rd 0, .wr 0, .rel 0, .acq 1 false, .rd 1, .wr 1, .rel 1]
      ⟨0, 2, [⟨0, .doneT⟩, ⟨0, .doneT⟩]⟩ hrunM).2 hdoneM
  · exact (lock_counter_spec.2 1 2
      [.acq 0 (), .rd 0, .wr 0, .rel 0, .acq 1 (), .rd 1, .wr 1, .rel 1]
      ⟨false, 2, [⟨0, .doneT⟩, ⟨0, .doneT⟩]⟩ hrunS).2 hdoneS

end RustConc
